import Mathlib

/-!
Shallow embedding of `src/taxtree.py` (the taxtree package).

The program parses the NCBI taxonomy dump (`names.dmp`, `nodes.dmp`),
builds a node index keyed by `tax_id`, attaches scientific names,
persists all nodes, and links every node to its parent.

Modelling conventions:
- Python byte lines are modelled as already-decoded `String`s.
- A Python `dict` is an insertion-ordered association list (`Dict`):
  assigning to an existing key replaces the value in place, a new key is
  appended; `.values()` is the list of second components in order.
- A raised Python exception is an `Except.error` carrying a `PyError`.
- `Tax.parent` stores the `tax_id` of the linked parent object: the node
  index holds exactly one object per key, so an object reference is
  identified by its key.
- The linked, acyclic object graph reachable through `parent` references
  (as used by `Tax.get_ancestor`) is modelled by the inductive `TaxNode`.
-/

deriving instance DecidableEq for Except

/-- `SCIENTIFIC_NAME` constant from the source. -/
def SCIENTIFIC_NAME : String := "scientific name"

/-- Python exceptions that the embedded fragment can raise. -/
inductive PyError where
  | keyError (key : String)
  | indexError
  | notImplementedError
deriving Repr, DecidableEq

/-- Insertion-ordered association list standing for a Python `dict`
with string keys. -/
abbrev Dict (α : Type) := List (String × α)

/-- Python `d[k] = v`: replace in place if `k` is present, else append. -/
def pyInsert (k : String) (v : α) : Dict α → Dict α
  | [] => [(k, v)]
  | (k', v') :: rest =>
    if k' = k then (k', v) :: rest else (k', v') :: pyInsert k v rest

/-- Lookup of a key (first matching entry). -/
def dget? (d : Dict α) (k : String) : Option α :=
  (d.find? (fun kv => kv.1 == k)).map (fun kv => kv.2)

/-- The keys of a dict, in insertion order. -/
def dictKeys (d : Dict α) : List String := d.map (fun kv => kv.1)

/-- Python `d.values()`, in insertion order. -/
def dictValues (d : Dict α) : List α := d.map (fun kv => kv.2)

/-- The `Tax` mapped class.  `id` is the integer database primary key
(absent until the row is flushed); `tax_id` is the external identifier
from the dump; `parent` is the linked parent object (by its key in the
node index), set by `fix_parent`. -/
structure Tax where
  id : Option Int := none
  tax_id : String
  parent_tax_id : Option String := none
  rank : Option String := none
  name : Option String := none
  parent : Option String := none
deriving Repr, DecidableEq

/-- A Python value appearing as the right operand of `==` on a `Tax`. -/
inductive PyVal where
  | vtax (t : Tax)
  | vnone
  | vint (n : Int)
  | vstr (s : String)
deriving Repr, DecidableEq

/-- Whether a `PyVal` is a `Tax` instance (`isinstance(other, Tax)`). -/
def PyVal.isTaxVal : PyVal → Bool
  | .vtax _ => true
  | _ => false

/-- `Tax.__eq__`: raises `NotImplementedError` unless the other operand
is a `Tax`; otherwise compares the `id` fields. -/
def Tax.eqPy (self : Tax) : PyVal → Except PyError Bool
  | .vtax other => .ok (self.id == other.id)
  | _ => .error .notImplementedError

/-- `Tax.__hash__` returns `hash(self.tax_id)`: this is the value the
hash builtin is applied to. -/
def Tax.hashArg (self : Tax) : String := self.tax_id

/-- `Tax.fix_parent`: returns `None` when `parent_tax_id` is absent,
otherwise sets `parent` to the object found at `taxes[parent_tax_id]`
(a missing key raises `KeyError`). -/
def Tax.fix_parent (self : Tax) (taxes : Dict Tax) : Except PyError Tax :=
  match self.parent_tax_id with
  | none => .ok self
  | some p =>
    match dget? taxes p with
    | some _ => .ok { self with parent := some p }
    | none => .error (.keyError p)

/-- `Tax.fix_name`: when `name` is unset, sets it to `names[tax_id]`
(a missing key raises `KeyError`); otherwise leaves the node unchanged. -/
def Tax.fix_name (self : Tax) (names : Dict String) : Except PyError Tax :=
  match self.name with
  | some _ => .ok self
  | none =>
    match dget? names self.tax_id with
    | some v => .ok { self with name := some v }
    | none => .error (.keyError self.tax_id)

/-- A fully linked in-memory taxon: the acyclic object graph reachable
through `parent` references, as walked by `get_ancestor`.  `root` is a
node whose `parent` is `None`; `child` carries its parent object. -/
inductive TaxNode where
  | root (tax_id : String) (rank : Option String) (name : Option String)
  | child (tax_id : String) (rank : Option String) (name : Option String)
      (parent : TaxNode)

/-- The `rank` attribute of a linked node. -/
def TaxNode.rankOf : TaxNode → Option String
  | .root _ r _ => r
  | .child _ r _ _ => r

/-- The `parent` attribute of a linked node (`none` for the root). -/
def TaxNode.parentOf : TaxNode → Option TaxNode
  | .root _ _ _ => none
  | .child _ _ _ p => some p

/-- `Tax.get_ancestor`: return `self` when its rank equals the target,
`None` upon reaching the root, else recurse into the parent. -/
def TaxNode.get_ancestor : TaxNode → String → Option TaxNode
  | n@(.root _ r _), rank =>
    if r = some rank then some n else none
  | n@(.child _ r _ p), rank =>
    if r = some rank then some n else p.get_ancestor rank

/-- The parent chain of a node, starting at the node itself and ending
at the root: the direct path from the node to the root. -/
def TaxNode.chain : TaxNode → List TaxNode
  | n@(.root _ _ _) => [n]
  | n@(.child _ _ _ p) => n :: p.chain

/-- Python `line.rstrip(LINE_TERMINATOR)`: removes every trailing
character belonging to the set `{'\t', '|', '\n'}`. -/
def pyRstrip (cs : List Char) : List Char :=
  (cs.reverse.dropWhile (fun c => c = '\t' || c = '|' || c = '\n')).reverse

/-- Python `s.split(FIELD_TERMINATOR)` with the fixed separator
`"\t|\t"`: leftmost, non-overlapping occurrences delimit the fields. -/
def fieldSplit : List Char → List Char → List (List Char)
  | acc, '\t' :: '|' :: '\t' :: rest => acc.reverse :: fieldSplit [] rest
  | acc, c :: rest => fieldSplit (c :: acc) rest
  | acc, [] => [acc.reverse]

/-- `line.rstrip(LINE_TERMINATOR).split(FIELD_TERMINATOR)` from the two
reader functions. -/
def parseRow (line : String) : List String :=
  (fieldSplit [] (pyRstrip line.data)).map List.asString

/-- Field `i` of a parsed line, when present. -/
def fieldAt (line : String) (i : Nat) : Option String :=
  (parseRow line).get? i

/-- The `Tax(...)` constructor call in `read_nodes_dmp`: the row with
identifier `"1"` gets no `parent_tax_id`; every other row gets
`parent_tax_id = row[1]`.  Accessing a missing field raises
`IndexError`: both branches read up to `row[2]` and no further. -/
def mkNodeTax (row : List String) : Except PyError Tax :=
  match row with
  | r0 :: r1 :: r2 :: _ =>
    if r0 = "1" then .ok { tax_id := r0, rank := some r2 }
    else .ok { tax_id := r0, parent_tax_id := some r1, rank := some r2 }
  | _ => .error .indexError

/-- Sequential effectful fold: the loop body of the readers, stopping
at the first raised exception. -/
def exFoldl (f : σ → α → Except PyError σ) : σ → List α → Except PyError σ
  | s, [] => .ok s
  | s, a :: rest =>
    match f s a with
    | .error e => .error e
    | .ok s' => exFoldl f s' rest

/-- Sequential effectful map: a loop rebuilding each entry, stopping at
the first raised exception. -/
def exMapM (f : α → Except PyError β) : List α → Except PyError (List β)
  | [] => .ok []
  | a :: rest =>
    match f a with
    | .error e => .error e
    | .ok b =>
      match exMapM f rest with
      | .error e => .error e
      | .ok bs => .ok (b :: bs)

/-- One iteration of the `read_names_dmp` loop: evaluate `row[3]`
(raising `IndexError` on a short row), keep the row only when its name
class is `"scientific name"`, assigning `names[row[0]] = row[1]`. -/
def readNamesStep (names : Dict String) (line : String) :
    Except PyError (Dict String) :=
  match parseRow line with
  | r0 :: r1 :: _ :: r3 :: _ =>
    .ok (if r3 = SCIENTIFIC_NAME then pyInsert r0 r1 names else names)
  | _ => .error .indexError

/-- `read_names_dmp`: fold the loop body over the lines. -/
def readNamesDmp (lines : List String) : Except PyError (Dict String) :=
  exFoldl readNamesStep [] lines

/-- One iteration of the `read_nodes_dmp` loop:
`taxes[row[0]] = Tax(...)` (the constructed node's `tax_id` is
`row[0]`, so it doubles as the key). -/
def readNodesStep (taxes : Dict Tax) (line : String) :
    Except PyError (Dict Tax) :=
  match mkNodeTax (parseRow line) with
  | .error e => .error e
  | .ok t => .ok (pyInsert t.tax_id t taxes)

/-- `read_nodes_dmp`: fold the loop body over the lines. -/
def readNodesDmp (lines : List String) : Except PyError (Dict Tax) :=
  exFoldl readNodesStep [] lines

/-- One iteration of the name-fixing loop of `taxtree`, on an entry of
the node index. -/
def fixNameStep (names : Dict String) (kv : String × Tax) :
    Except PyError (String × Tax) :=
  match kv.2.fix_name names with
  | .error e => .error e
  | .ok t => .ok (kv.1, t)

/-- The name-fixing pass of `taxtree`:
`for tax in taxes.values(): tax.fix_name(names)`. -/
def fixNameAll (taxes : Dict Tax) (names : Dict String) :
    Except PyError (Dict Tax) :=
  exMapM (fixNameStep names) taxes

/-- One iteration of the parent-linking loop of `taxtree`, on an entry
of the node index. -/
def linkStep (taxes : Dict Tax) (kv : String × Tax) :
    Except PyError (String × Tax) :=
  match kv.2.fix_parent taxes with
  | .error e => .error e
  | .ok t => .ok (kv.1, t)

/-- The parent-linking pass of `taxtree`:
`for tax in taxes.values(): tax.fix_parent(taxes)`.  Only key presence
in the index is consulted, and the loop never changes the key set, so
every iteration looks up in the same index. -/
def linkAll (taxes : Dict Tax) : Except PyError (Dict Tax) :=
  exMapM (linkStep taxes) taxes

/-- The node produced by a successful `fix_parent`: the `parent`
reference is set from `parent_tax_id` when the latter is present. -/
def linkResult (t : Tax) : Tax :=
  match t.parent_tax_id with
  | some p => { t with parent := some p }
  | none => t

/-- The insertion sequence of the save loop of `taxtree`:
`for tax in taxes.values(): session.add(tax)` emits the dict's values
in insertion order. -/
def persistOrder (taxes : Dict Tax) : List Tax := dictValues taxes

/-- Helper for `topoOK`: checks each node against the set of nodes
emitted before it. -/
def topoAux : List Tax → List Tax → Bool
  | _, [] => true
  | seen, t :: rest =>
    (match t.parent_tax_id with
     | none => true
     | some p => seen.any (fun u => u.tax_id == p)) && topoAux (seen ++ [t]) rest

/-- The claimed ordering property: every node's parent (if any) occurs
strictly earlier in the sequence. -/
def topoOK (order : List Tax) : Bool := topoAux [] order

/-- Modelled from the spec: the name retained for identifier `k` is the
one of the last row whose name class is `"scientific name"` and whose
identifier is `k`; rows of any other class contribute nothing. -/
def lastSciName (lines : List String) (k : String) : Option String :=
  match lines with
  | [] => none
  | l :: rest =>
    match lastSciName rest k with
    | some v => some v
    | none =>
      if (fieldAt l 3 == some SCIENTIFIC_NAME) && (fieldAt l 0 == some k) then
        fieldAt l 1
      else none

/-- Whether a computation finished without raising. -/
def exIsOk : Except PyError α → Bool
  | .ok _ => true
  | .error _ => false

example : parseRow "2\t|\t1\t|\tspecies\t|\n" = ["2", "1", "species"] := by decide

example : readNodesDmp ["2\t|\t1\t|\tspecies\t|\n", "1\t|\t1\t|\tno rank\t|\n"] =
    .ok [("2", { tax_id := "2", parent_tax_id := some "1", rank := some "species" }),
         ("1", { tax_id := "1", rank := some "no rank" })] := by decide

example : readNamesDmp ["5\t|\tPanthera leo\t|\t\t|\tscientific name\t|\n",
    "5\t|\tLion\t|\t\t|\tsynonym\t|\n"] = .ok [("5", "Panthera leo")] := by decide

example : topoOK (persistOrder
    [("2", { tax_id := "2", parent_tax_id := some "1", rank := some "species" }),
     ("1", { tax_id := "1", rank := some "no rank" })]) = false := by decide

example : ({ tax_id := "7" } : Tax).fix_name [] = .error (.keyError "7") := by decide

theorem pyInsert_cons {α : Type} (k : String) (v : α) (k₀ : String) (v₀ : α)
    (rest : Dict α) :
    pyInsert k v ((k₀, v₀) :: rest) =
      if k₀ = k then (k₀, v) :: rest else (k₀, v₀) :: pyInsert k v rest := rfl

theorem dictKeys_cons {α : Type} (kv : String × α) (rest : Dict α) :
    dictKeys (kv :: rest) = kv.1 :: dictKeys rest := rfl

theorem dget?_cons {α : Type} (k₀ k : String) (v₀ : α) (rest : Dict α) :
    dget? ((k₀, v₀) :: rest) k = if k₀ = k then some v₀ else dget? rest k := by
  by_cases h : k₀ = k
  · have hb : (k₀ == k) = true := beq_iff_eq.mpr h
    simp [dget?, List.find?_cons, hb, h]
  · have hb : (k₀ == k) = false := beq_eq_false_iff_ne.mpr h
    simp [dget?, List.find?_cons, hb, h]

theorem mem_keys_pyInsert {α : Type} (k k' : String) (v : α) (d : Dict α) :
    k' ∈ dictKeys (pyInsert k v d) ↔ k' = k ∨ k' ∈ dictKeys d := by
  induction d with
  | nil => simp [pyInsert, dictKeys]
  | cons kv rest ih =>
    obtain ⟨k₀, v₀⟩ := kv
    rw [pyInsert_cons]
    by_cases h : k₀ = k
    · rw [if_pos h, dictKeys_cons, dictKeys_cons]
      subst h
      simp only [List.mem_cons]
      tauto
    · rw [if_neg h, dictKeys_cons, dictKeys_cons]
      simp only [List.mem_cons]
      rw [ih]
      tauto

theorem nodup_keys_pyInsert {α : Type} (k : String) (v : α) (d : Dict α)
    (h : (dictKeys d).Nodup) : (dictKeys (pyInsert k v d)).Nodup := by
  induction d with
  | nil => simp [pyInsert, dictKeys]
  | cons kv rest ih =>
    obtain ⟨k₀, v₀⟩ := kv
    rw [dictKeys_cons, List.nodup_cons] at h
    rw [pyInsert_cons]
    by_cases hk : k₀ = k
    · rw [if_pos hk, dictKeys_cons, List.nodup_cons]
      exact ⟨h.1, h.2⟩
    · rw [if_neg hk, dictKeys_cons, List.nodup_cons]
      refine ⟨?_, ih h.2⟩
      intro hmem
      rcases (mem_keys_pyInsert k k₀ v rest).mp hmem with h1 | h2
      · exact hk h1
      · exact h.1 h2

theorem mem_pyInsert {α : Type} {k k' : String} {v v' : α} {d : Dict α}
    (h : (k', v') ∈ pyInsert k v d) : (k' = k ∧ v' = v) ∨ (k', v') ∈ d := by
  induction d with
  | nil =>
    rw [show pyInsert k v ([] : Dict α) = [(k, v)] from rfl] at h
    have h' := List.mem_singleton.mp h
    exact Or.inl ⟨congrArg Prod.fst h', congrArg Prod.snd h'⟩
  | cons kv rest ih =>
    obtain ⟨k₀, v₀⟩ := kv
    rw [pyInsert_cons] at h
    by_cases hk : k₀ = k
    · rw [if_pos hk] at h
      rcases List.mem_cons.mp h with h | h
      · have h1 : k' = k₀ := congrArg Prod.fst h
        have h2 : v' = v := congrArg Prod.snd h
        exact Or.inl ⟨h1.trans hk, h2⟩
      · exact Or.inr (List.mem_cons_of_mem _ h)
    · rw [if_neg hk] at h
      rcases List.mem_cons.mp h with h | h
      · exact Or.inr (List.mem_cons.mpr (Or.inl h))
      · rcases ih h with h' | h'
        · exact Or.inl h'
        · exact Or.inr (List.mem_cons_of_mem _ h')

theorem dget?_eq_none_of_not_mem {α : Type} {d : Dict α} {k : String}
    (h : k ∉ dictKeys d) : dget? d k = none := by
  induction d with
  | nil => rfl
  | cons kv rest ih =>
    obtain ⟨k₀, v₀⟩ := kv
    rw [dictKeys_cons, List.mem_cons] at h
    push_neg at h
    rw [dget?_cons, if_neg (fun he => h.1 he.symm)]
    exact ih h.2

theorem dget?_isSome_of_mem_keys {α : Type} {d : Dict α} {k : String}
    (h : k ∈ dictKeys d) : ∃ v, dget? d k = some v := by
  induction d with
  | nil => simp [dictKeys] at h
  | cons kv rest ih =>
    obtain ⟨k₀, v₀⟩ := kv
    by_cases hk : k₀ = k
    · exact ⟨v₀, by rw [dget?_cons, if_pos hk]⟩
    · rw [dictKeys_cons, List.mem_cons] at h
      rcases h with h | h
      · exact absurd h.symm hk
      · obtain ⟨v, hv⟩ := ih h
        exact ⟨v, by rw [dget?_cons, if_neg hk]; exact hv⟩

theorem dget?_pyInsert_self {α : Type} (k : String) (v : α) (d : Dict α) :
    dget? (pyInsert k v d) k = some v := by
  induction d with
  | nil =>
    rw [show pyInsert k v ([] : Dict α) = [(k, v)] from rfl, dget?_cons, if_pos rfl]
  | cons kv rest ih =>
    obtain ⟨k₀, v₀⟩ := kv
    rw [pyInsert_cons]
    by_cases hk : k₀ = k
    · rw [if_pos hk, dget?_cons, if_pos hk]
    · rw [if_neg hk, dget?_cons, if_neg hk]
      exact ih

theorem dget?_pyInsert_ne {α : Type} {k k' : String} (hne : k' ≠ k) (v : α)
    (d : Dict α) : dget? (pyInsert k v d) k' = dget? d k' := by
  induction d with
  | nil =>
    rw [show pyInsert k v ([] : Dict α) = [(k, v)] from rfl, dget?_cons,
      if_neg (fun he => hne he.symm)]
  | cons kv rest ih =>
    obtain ⟨k₀, v₀⟩ := kv
    rw [pyInsert_cons]
    by_cases hk : k₀ = k
    · subst hk
      rw [if_pos rfl, dget?_cons, dget?_cons,
        if_neg (fun he => hne he.symm), if_neg (fun he => hne he.symm)]
    · rw [if_neg hk, dget?_cons, dget?_cons]
      by_cases hk' : k₀ = k'
      · rw [if_pos hk', if_pos hk']
      · rw [if_neg hk', if_neg hk']
        exact ih

theorem exMapM_isOk_false {α β : Type} {f : α → Except PyError β} {l : List α}
    {x : α} (hx : x ∈ l) (hfx : exIsOk (f x) = false) :
    exIsOk (exMapM f l) = false := by
  induction l with
  | nil => cases hx
  | cons a rest ih =>
    rcases List.mem_cons.mp hx with rfl | hx'
    · cases hfa : f x with
      | error e => simp [exMapM, hfa, exIsOk]
      | ok b => rw [hfa] at hfx; simp [exIsOk] at hfx
    · cases hfa : f a with
      | error e => simp [exMapM, hfa, exIsOk]
      | ok b =>
        have hrec := ih hx'
        simp only [exMapM, hfa]
        cases hrest : exMapM f rest with
        | error e => simp [exIsOk]
        | ok bs => rw [hrest] at hrec; simp [exIsOk] at hrec

/-- C1: `get_ancestor` walks the parent chain starting at the node
itself and returns the first node on that chain (inclusive of the node)
whose rank equals the target, or `none` if the chain reaches the root
without a match; a returned node lies on the direct path from the node
to the root. -/
theorem get_ancestor_spec (t : TaxNode) (r : String) :
    t.get_ancestor r = t.chain.find? (fun a => a.rankOf == some r) ∧
    ∀ a, t.get_ancestor r = some a → a ∈ t.chain := by
  induction t with
  | root tid rk nm =>
    by_cases h : rk = some r
    · refine ⟨?_, ?_⟩
      · simp [TaxNode.get_ancestor, TaxNode.chain, List.find?_cons,
          TaxNode.rankOf, h]
      · intro a ha
        rw [TaxNode.get_ancestor, if_pos h] at ha
        rw [TaxNode.chain]
        exact (Option.some.injEq .. ▸ ha) ▸ List.mem_singleton.mpr rfl
    · have hb : (rk == some r) = false := beq_eq_false_iff_ne.mpr h
      refine ⟨?_, ?_⟩
      · simp [TaxNode.get_ancestor, TaxNode.chain, List.find?_cons,
          TaxNode.rankOf, h, hb]
      · intro a ha
        rw [TaxNode.get_ancestor, if_neg h] at ha
        cases ha
  | child tid rk nm p ih =>
    by_cases h : rk = some r
    · refine ⟨?_, ?_⟩
      · simp [TaxNode.get_ancestor, TaxNode.chain, List.find?_cons,
          TaxNode.rankOf, h]
      · intro a ha
        rw [TaxNode.get_ancestor, if_pos h] at ha
        have : a = TaxNode.child tid rk nm p := (Option.some.injEq .. ▸ ha).symm
        rw [TaxNode.chain, this]
        exact List.mem_cons_self ..
    · have hb : (rk == some r) = false := beq_eq_false_iff_ne.mpr h
      refine ⟨?_, ?_⟩
      · rw [TaxNode.get_ancestor, if_neg h, TaxNode.chain,
          List.find?_cons_of_neg _ (by simpa [TaxNode.rankOf] using hb)]
        exact ih.1
      · intro a ha
        rw [TaxNode.get_ancestor, if_neg h] at ha
        rw [TaxNode.chain]
        exact List.mem_cons_of_mem _ (ih.2 a ha)

/-- C1 witness: in the two-node tree of spec Scenario A, the kingdom
ancestor of the species child is the root, computed as the first match
on the chain and lying on the chain. -/
theorem get_ancestor_spec_witness :
    (TaxNode.child "2" (some "species") none
        (TaxNode.root "1" (some "kingdom") none)).get_ancestor "kingdom" =
      ((TaxNode.child "2" (some "species") none
        (TaxNode.root "1" (some "kingdom") none)).chain.find?
          (fun a => a.rankOf == some "kingdom")) ∧
    TaxNode.root "1" (some "kingdom") none ∈
      (TaxNode.child "2" (some "species") none
        (TaxNode.root "1" (some "kingdom") none)).chain :=
  ⟨(get_ancestor_spec (TaxNode.child "2" (some "species") none
      (TaxNode.root "1" (some "kingdom") none)) "kingdom").1,
   (get_ancestor_spec (TaxNode.child "2" (some "species") none
      (TaxNode.root "1" (some "kingdom") none)) "kingdom").2
      (TaxNode.root "1" (some "kingdom") none) rfl⟩

/-- C3 counterexample: a node with unset name and no entry in the name
mapping makes `fix_name` raise `KeyError`, instead of tolerating the
gap: the claim that no error is raised is false. -/
theorem fix_name_missing_raises_counterexample :
    ({ tax_id := "7" } : Tax).name = none ∧
    dget? ([] : Dict String) "7" = none ∧
    ({ tax_id := "7" } : Tax).fix_name [] = .error (.keyError "7") :=
  ⟨rfl, rfl, rfl⟩

/-- C3 amended: for every node whose name is unset, if no entry exists
in the name mapping for its identifier, `fix_name` raises `KeyError`
on that identifier (name resolution is fatal there, the node does not
keep an absent name silently). -/
theorem fix_name_missing_keyError (t : Tax) (names : Dict String)
    (hname : t.name = none) (hmiss : dget? names t.tax_id = none) :
    t.fix_name names = .error (.keyError t.tax_id) := by
  rw [Tax.fix_name]
  rw [hname, hmiss]

/-- C3 witness for the amended statement. -/
theorem fix_name_missing_keyError_witness :
    ({ tax_id := "9" } : Tax).fix_name [("8", "Felis")] =
      .error (.keyError "9") :=
  fix_name_missing_keyError { tax_id := "9" } [("8", "Felis")] rfl rfl

/-- C4: during parent linking, a non-root node whose declared parent
identifier is absent from the node index makes `fix_parent` raise the
dangling-parent `KeyError` on that identifier, and the whole linking
pass fails rather than leaving the parent silently unresolved. -/
theorem fix_parent_dangling_fatal (d : Dict Tax) (k : String) (t : Tax)
    (p : String) (hmem : (k, t) ∈ d) (hp : t.parent_tax_id = some p)
    (habs : p ∉ dictKeys d) :
    t.fix_parent d = .error (.keyError p) ∧ exIsOk (linkAll d) = false := by
  have hfix : t.fix_parent d = .error (.keyError p) := by
    simp only [Tax.fix_parent, hp, dget?_eq_none_of_not_mem habs]
  refine ⟨hfix, ?_⟩
  apply exMapM_isOk_false (x := (k, t)) hmem
  simp only [linkStep, hfix, exIsOk]

/-- C4 witness: spec Scenario B, node `3` with parent `99` absent from
the index. -/
theorem fix_parent_dangling_fatal_witness :
    ({ tax_id := "3", parent_tax_id := some "99" } : Tax).fix_parent
        [("3", { tax_id := "3", parent_tax_id := some "99" })] =
      .error (.keyError "99") ∧
    exIsOk (linkAll [("3", { tax_id := "3", parent_tax_id := some "99" })]) =
      false :=
  fix_parent_dangling_fatal _ "3" _ "99" (by decide) (by decide) (by decide)

/-- C9 counterexample: two nodes with identical `id` fields compare
equal, yet the values handed to the hash builtin (their `tax_id`s)
differ, so the hash is not computed from the `id` used by equality. -/
theorem eq_hash_mismatch_counterexample :
    ({ id := some 5, tax_id := "2" } : Tax).eqPy
        (.vtax { id := some 5, tax_id := "3" }) = .ok true ∧
    ({ id := some 5, tax_id := "2" } : Tax).hashArg ≠
      ({ id := some 5, tax_id := "3" } : Tax).hashArg := by
  decide

/-- C9 amended: two Tax nodes compare equal exactly when their `id`
fields (the integer database primary keys) are identical, while the
hash is computed from `tax_id`; equal nodes can therefore feed
different values to the hash builtin. -/
theorem eq_by_id_hash_by_tax_id (a b : Tax) :
    (a.eqPy (.vtax b) = .ok true ↔ a.id = b.id) ∧ a.hashArg = a.tax_id := by
  refine ⟨?_, rfl⟩
  rw [Tax.eqPy]
  constructor
  · intro h
    have hb : (a.id == b.id) = true := Except.ok.injEq .. ▸ h
    exact beq_iff_eq.mp hb
  · intro h
    rw [beq_iff_eq.mpr h]

/-- C10: comparing a Tax node with any non-Tax value (`None`, numbers,
strings) raises `NotImplementedError` instead of returning `False`. -/
theorem eqPy_non_tax_raises (t : Tax) (v : PyVal) (hv : v.isTaxVal = false) :
    t.eqPy v = .error .notImplementedError := by
  cases v with
  | vtax u => simp [PyVal.isTaxVal] at hv
  | vnone => rfl
  | vint n => rfl
  | vstr s => rfl

/-- C10 witness: comparing against `None` raises. -/
theorem eqPy_non_tax_raises_witness :
    ({ tax_id := "1" } : Tax).eqPy .vnone = .error .notImplementedError :=
  eqPy_non_tax_raises { tax_id := "1" } .vnone rfl

theorem mkNodeTax_ok {row : List String} {t : Tax} (h : mkNodeTax row = .ok t) :
    row.get? 0 = some t.tax_id ∧ t.parent = none ∧ t.name = none ∧
    t.id = none ∧
    ((t.tax_id = "1" ∧ t.parent_tax_id = none) ∨
      (t.tax_id ≠ "1" ∧ row.get? 1 = t.parent_tax_id ∧
        t.parent_tax_id ≠ none)) := by
  rcases row with _ | ⟨r0, _ | ⟨r1, _ | ⟨r2, rest⟩⟩⟩
  · simp [mkNodeTax] at h
  · simp [mkNodeTax] at h
  · simp [mkNodeTax] at h
  · simp only [mkNodeTax] at h
    by_cases h0 : r0 = "1"
    · rw [if_pos h0] at h
      injection h with ht
      subst ht
      exact ⟨rfl, rfl, rfl, rfl, Or.inl ⟨h0, rfl⟩⟩
    · rw [if_neg h0] at h
      injection h with ht
      subst ht
      exact ⟨rfl, rfl, rfl, rfl, Or.inr ⟨h0, rfl, by simp⟩⟩

theorem readNodes_entries {lines : List String} {acc d : Dict Tax}
    (h : exFoldl readNodesStep acc lines = .ok d) {k : String} {t : Tax}
    (hmem : (k, t) ∈ d) :
    (k, t) ∈ acc ∨
      ∃ l ∈ lines, fieldAt l 0 = some k ∧ mkNodeTax (parseRow l) = .ok t := by
  induction lines generalizing acc with
  | nil =>
    rw [exFoldl] at h
    injection h with h'
    subst h'
    exact Or.inl hmem
  | cons l rest ih =>
    rw [exFoldl] at h
    cases hstep : readNodesStep acc l with
    | error e => rw [hstep] at h; cases h
    | ok acc' =>
      rw [hstep] at h
      rcases ih h with hin | ⟨l', hl', hf, hmk⟩
      · rw [readNodesStep] at hstep
        cases hmk0 : mkNodeTax (parseRow l) with
        | error e => rw [hmk0] at hstep; cases hstep
        | ok t₀ =>
          rw [hmk0] at hstep
          injection hstep with h''
          subst h''
          rcases mem_pyInsert hin with ⟨hk, ht⟩ | hin'
          · subst ht
            refine Or.inr ⟨l, List.mem_cons_self .., ?_, hmk0⟩
            rw [fieldAt, (mkNodeTax_ok hmk0).1, hk]
          · exact Or.inl hin'
      · exact Or.inr ⟨l', List.mem_cons_of_mem _ hl', hf, hmk⟩

theorem readNodes_keys {lines : List String} {acc d : Dict Tax}
    (h : exFoldl readNodesStep acc lines = .ok d) (k : String) :
    k ∈ dictKeys d ↔ k ∈ dictKeys acc ∨ ∃ l ∈ lines, fieldAt l 0 = some k := by
  induction lines generalizing acc with
  | nil =>
    rw [exFoldl] at h
    injection h with h'
    subst h'
    simp
  | cons l rest ih =>
    rw [exFoldl] at h
    cases hstep : readNodesStep acc l with
    | error e => rw [hstep] at h; cases h
    | ok acc' =>
      rw [hstep] at h
      rw [ih h]
      rw [readNodesStep] at hstep
      cases hmk0 : mkNodeTax (parseRow l) with
      | error e => rw [hmk0] at hstep; cases hstep
      | ok t₀ =>
        rw [hmk0] at hstep
        injection hstep with h''
        subst h''
        rw [mem_keys_pyInsert]
        have hf0 : (parseRow l).get? 0 = some t₀.tax_id := (mkNodeTax_ok hmk0).1
        constructor
        · rintro ((rfl | hacc) | ⟨l', hl', hf⟩)
          · exact Or.inr ⟨l, List.mem_cons_self .., by rw [fieldAt, hf0]⟩
          · exact Or.inl hacc
          · exact Or.inr ⟨l', List.mem_cons_of_mem _ hl', hf⟩
        · rintro (hacc | ⟨l', hl', hf⟩)
          · exact Or.inl (Or.inr hacc)
          · rcases List.mem_cons.mp hl' with rfl | hl''
            · rw [fieldAt, hf0] at hf
              injection hf with hf
              exact Or.inl (Or.inl hf.symm)
            · exact Or.inr ⟨l', hl'', hf⟩

theorem readNodes_nodup {lines : List String} {acc d : Dict Tax}
    (h : exFoldl readNodesStep acc lines = .ok d)
    (hacc : (dictKeys acc).Nodup) : (dictKeys d).Nodup := by
  induction lines generalizing acc with
  | nil =>
    rw [exFoldl] at h
    injection h with h'
    subst h'
    exact hacc
  | cons l rest ih =>
    rw [exFoldl] at h
    cases hstep : readNodesStep acc l with
    | error e => rw [hstep] at h; cases h
    | ok acc' =>
      rw [hstep] at h
      apply ih h
      rw [readNodesStep] at hstep
      cases hmk0 : mkNodeTax (parseRow l) with
      | error e => rw [hmk0] at hstep; cases hstep
      | ok t₀ =>
        rw [hmk0] at hstep
        injection hstep with h''
        subst h''
        exact nodup_keys_pyInsert _ _ _ hacc

theorem fix_parent_ok {t : Tax} {d : Dict Tax}
    (h : ∀ p, t.parent_tax_id = some p → p ∈ dictKeys d) :
    t.fix_parent d = .ok (linkResult t) := by
  cases hp : t.parent_tax_id with
  | none => simp only [Tax.fix_parent, linkResult, hp]
  | some p =>
    obtain ⟨v, hv⟩ := dget?_isSome_of_mem_keys (h p hp)
    simp only [Tax.fix_parent, linkResult, hp, hv]

theorem exMapM_linkStep (d : Dict Tax) (l : List (String × Tax))
    (h : ∀ kv ∈ l, ∀ p, kv.2.parent_tax_id = some p → p ∈ dictKeys d) :
    exMapM (linkStep d) l = .ok (l.map (fun kv => (kv.1, linkResult kv.2))) := by
  induction l with
  | nil => rfl
  | cons kv rest ih =>
    have hfix := fix_parent_ok (t := kv.2) (d := d) (h kv (List.mem_cons_self ..))
    have hrec := ih (fun kv' hkv' => h kv' (List.mem_cons_of_mem _ hkv'))
    rw [exMapM, show linkStep d kv = .ok (kv.1, linkResult kv.2) by
      rw [linkStep, hfix]]
    rw [hrec, List.map_cons]

theorem exMapM_mem {α β : Type} {f : α → Except PyError β} {l : List α}
    {bs : List β} (h : exMapM f l = .ok bs) {b : β} (hb : b ∈ bs) :
    ∃ a ∈ l, f a = .ok b := by
  induction l generalizing bs with
  | nil =>
    rw [exMapM] at h
    injection h with h'
    subst h'
    cases hb
  | cons a rest ih =>
    rw [exMapM] at h
    cases hfa : f a with
    | error e => rw [hfa] at h; cases h
    | ok b₀ =>
      rw [hfa] at h
      cases hrest : exMapM f rest with
      | error e => rw [hrest] at h; cases h
      | ok bs₀ =>
        rw [hrest] at h
        injection h with h'
        subst h'
        rcases List.mem_cons.mp hb with rfl | hb'
        · exact ⟨a, List.mem_cons_self .., hfa⟩
        · obtain ⟨a', ha', hfa'⟩ := ih hrest hb'
          exact ⟨a', List.mem_cons_of_mem _ ha', hfa'⟩

theorem fix_name_preserves {t t' : Tax} {names : Dict String}
    (h : t.fix_name names = .ok t') :
    t'.parent = t.parent ∧ t'.tax_id = t.tax_id ∧
      t'.parent_tax_id = t.parent_tax_id := by
  cases hn : t.name with
  | some v =>
    simp only [Tax.fix_name, hn] at h
    injection h with h'
    subst h'
    exact ⟨rfl, rfl, rfl⟩
  | none =>
    simp only [Tax.fix_name, hn] at h
    cases hg : dget? names t.tax_id with
    | some v =>
      rw [hg] at h
      injection h with h'
      subst h'
      exact ⟨rfl, rfl, rfl⟩
    | none => rw [hg] at h; cases h

theorem fix_name_stable {t t' : Tax} {names : Dict String}
    (h : t.fix_name names = .ok t') : t'.fix_name names = .ok t' := by
  cases hn : t.name with
  | some v =>
    simp only [Tax.fix_name, hn] at h
    injection h with h'
    subst h'
    simp only [Tax.fix_name, hn]
  | none =>
    simp only [Tax.fix_name, hn] at h
    cases hg : dget? names t.tax_id with
    | none => rw [hg] at h; cases h
    | some v =>
      rw [hg] at h
      injection h with h'
      subst h'
      simp only [Tax.fix_name]

/-- C2 counterexample: with the child row before the root row in
`nodes.dmp`, the save loop emits the child (whose declared parent is
`"1"`) before the root, so the insertion sequence is not a topological
order. -/
theorem persistOrder_topo_counterexample :
    readNodesDmp ["2\t|\t1\t|\tspecies\t|\n", "1\t|\t1\t|\tno rank\t|\n"] =
      .ok [("2", { tax_id := "2", parent_tax_id := some "1",
                   rank := some "species" }),
           ("1", { tax_id := "1", rank := some "no rank" })] ∧
    fixNameAll
        [("2", { tax_id := "2", parent_tax_id := some "1",
                 rank := some "species" }),
         ("1", { tax_id := "1", rank := some "no rank" })]
        [("2", "Homo sapiens"), ("1", "Animalia")] =
      .ok [("2", { tax_id := "2", parent_tax_id := some "1",
                   rank := some "species", name := some "Homo sapiens" }),
           ("1", { tax_id := "1", rank := some "no rank",
                   name := some "Animalia" })] ∧
    topoOK (persistOrder
        [("2", { tax_id := "2", parent_tax_id := some "1",
                 rank := some "species", name := some "Homo sapiens" }),
         ("1", { tax_id := "1", rank := some "no rank",
                 name := some "Animalia" })]) = false := by
  decide

/-- C2 amended: the persistence pass emits the nodes in node-index
insertion order (the input order of `nodes.dmp`), which need not be
topological; instead, every node is emitted with its `parent` reference
still unset (parents are linked only in a later update pass), so the
insertion sequence never requires a parent row to exist first. -/
theorem persistOrder_parents_unset (lines : List String) (names : Dict String)
    (d d' : Dict Tax) (hparse : readNodesDmp lines = .ok d)
    (hfix : fixNameAll d names = .ok d') (t : Tax)
    (ht : t ∈ persistOrder d') : t.parent = none := by
  have hparse' : exFoldl readNodesStep [] lines = .ok d := hparse
  obtain ⟨kv, hkv, hkvt⟩ := List.mem_map.mp ht
  obtain ⟨a, ha, hfa⟩ := exMapM_mem hfix hkv
  obtain ⟨k₀, t₀⟩ := a
  rw [fixNameStep] at hfa
  cases hfix₀ : Tax.fix_name t₀ names with
  | error e => rw [hfix₀] at hfa; cases hfa
  | ok t₁ =>
    rw [hfix₀] at hfa
    injection hfa with hfa
    have hkv2 : kv.2 = t₁ := by rw [← hfa]
    rcases readNodes_entries hparse' ha with hin | ⟨l, hl, hf0, hmk⟩
    · cases hin
    · have hpar0 : t₀.parent = none := (mkNodeTax_ok hmk).2.1
      rw [← hkvt, hkv2, (fix_name_preserves hfix₀).1, hpar0]

/-- C2 witness for the amended statement: the first emitted node of the
counterexample run (the child) has its parent reference unset. -/
theorem persistOrder_parents_unset_witness :
    ({ tax_id := "2", parent_tax_id := some "1", rank := some "species",
       name := some "Homo sapiens" } : Tax).parent = none :=
  persistOrder_parents_unset
    ["2\t|\t1\t|\tspecies\t|\n", "1\t|\t1\t|\tno rank\t|\n"]
    [("2", "Homo sapiens"), ("1", "Animalia")]
    [("2", { tax_id := "2", parent_tax_id := some "1",
             rank := some "species" }),
     ("1", { tax_id := "1", rank := some "no rank" })]
    [("2", { tax_id := "2", parent_tax_id := some "1",
             rank := some "species", name := some "Homo sapiens" }),
     ("1", { tax_id := "1", rank := some "no rank",
             name := some "Animalia" })]
    (by decide) (by decide) _ (by decide)

theorem optSome_or {α : Type} (a : α) (x : Option α) : (some a).or x = some a := rfl

theorem optNone_or {α : Type} (x : Option α) : (Option.none).or x = x := rfl

theorem optOr_none {α : Type} (x : Option α) : x.or none = x := by
  cases x <;> rfl

theorem readNames_lastWins {lines : List String} {acc m : Dict String}
    (h : exFoldl readNamesStep acc lines = .ok m) (k : String) :
    dget? m k = (lastSciName lines k).or (dget? acc k) := by
  induction lines generalizing acc with
  | nil =>
    rw [exFoldl] at h
    injection h with h'
    subst h'
    rw [lastSciName, optNone_or]
  | cons l rest ih =>
    rw [exFoldl] at h
    cases hstep : readNamesStep acc l with
    | error e => rw [hstep] at h; cases h
    | ok acc' =>
      rw [hstep] at h
      rw [ih h]
      rcases hrow : parseRow l with _ | ⟨r0, _ | ⟨r1, _ | ⟨r2', _ | ⟨r3, rrest⟩⟩⟩⟩
      · rw [readNamesStep, hrow] at hstep; cases hstep
      · rw [readNamesStep, hrow] at hstep; cases hstep
      · rw [readNamesStep, hrow] at hstep; cases hstep
      · rw [readNamesStep, hrow] at hstep; cases hstep
      · rw [readNamesStep, hrow] at hstep
        injection hstep with hacc'
        cases hlast : lastSciName rest k with
        | some v =>
          rw [optSome_or,
            show lastSciName (l :: rest) k = some v by rw [lastSciName, hlast],
            optSome_or]
        | none =>
          rw [optNone_or,
            show lastSciName (l :: rest) k =
              (if (fieldAt l 3 == some SCIENTIFIC_NAME) &&
                  (fieldAt l 0 == some k)
               then fieldAt l 1 else none) by rw [lastSciName, hlast]]
          simp only [fieldAt, hrow, List.get?]
          by_cases h3 : r3 = SCIENTIFIC_NAME
          · by_cases h0 : r0 = k
            · subst h3
              subst h0
              rw [if_pos rfl] at hacc'
              subst hacc'
              rw [dget?_pyInsert_self, if_pos (by simp), optSome_or]
            · rw [if_pos h3] at hacc'
              subst hacc'
              rw [dget?_pyInsert_ne (fun he => h0 he.symm),
                if_neg (by simp [h0]), optNone_or]
          · rw [if_neg h3] at hacc'
            subst hacc'
            rw [if_neg (by simp [h3]), optNone_or]

/-- C5: for every input whose parse succeeds, the mapping produced by
`read_names_dmp` contains, at each identifier, exactly the name of the
last row of class `"scientific name"` with that identifier (rows of any
other name class are skipped; with several scientific-name rows for one
identifier, the last one encountered wins). -/
theorem read_names_scientific_last_wins (lines : List String)
    (m : Dict String) (h : readNamesDmp lines = .ok m) (k : String) :
    dget? m k = lastSciName lines k := by
  have h' : exFoldl readNamesStep [] lines = .ok m := h
  rw [readNames_lastWins h' k,
    show dget? ([] : Dict String) k = none from rfl, optOr_none]

/-- C5 witness: spec Scenario C, an identifier with one scientific-name
row and one synonym row resolves to the scientific name. -/
theorem read_names_scientific_last_wins_witness :
    dget? [("5", "Panthera leo")] "5" =
      lastSciName ["5\t|\tPanthera leo\t|\t\t|\tscientific name\t|\n",
        "5\t|\tLion\t|\t\t|\tsynonym\t|\n"] "5" ∧
    lastSciName ["5\t|\tPanthera leo\t|\t\t|\tscientific name\t|\n",
        "5\t|\tLion\t|\t\t|\tsynonym\t|\n"] "5" = some "Panthera leo" :=
  ⟨read_names_scientific_last_wins
      ["5\t|\tPanthera leo\t|\t\t|\tscientific name\t|\n",
        "5\t|\tLion\t|\t\t|\tsynonym\t|\n"]
      [("5", "Panthera leo")] (by decide) "5",
   by decide⟩

theorem fixNameAll_stable {d d' : Dict Tax} {names : Dict String}
    (h : fixNameAll d names = .ok d') : fixNameAll d' names = .ok d' := by
  induction d generalizing d' with
  | nil =>
    rw [fixNameAll, exMapM] at h
    injection h with h'
    subst h'
    rfl
  | cons kv rest ih =>
    rw [fixNameAll, exMapM] at h
    cases hstep : fixNameStep names kv with
    | error e => rw [hstep] at h; cases h
    | ok kv' =>
      rw [hstep] at h
      cases hrest : exMapM (fixNameStep names) rest with
      | error e => rw [hrest] at h; cases h
      | ok ds' =>
        rw [hrest] at h
        injection h with h'
        subst h'
        have hrec : fixNameAll ds' names = .ok ds' :=
          ih (show fixNameAll rest names = .ok ds' from hrest)
        rw [fixNameStep] at hstep
        cases hfix : kv.2.fix_name names with
        | error e => rw [hfix] at hstep; cases hstep
        | ok t' =>
          rw [hfix] at hstep
          injection hstep with h''
          subst h''
          rw [fixNameAll, exMapM,
            show fixNameStep names (kv.1, t') = .ok (kv.1, t') by
              rw [fixNameStep, show ((kv.1, t') : String × Tax).2 = t' from rfl,
                fix_name_stable hfix],
            show exMapM (fixNameStep names) ds' = .ok ds' from hrec]

/-- C6: the Name Resolver is idempotent: when the name-fixing pass
succeeds, running it again on its output returns the output unchanged,
and running `fix_name` on an already-named node leaves the node (hence
its name) unchanged. -/
theorem fix_name_idempotent (d : Dict Tax) (names : Dict String)
    (d' : Dict Tax) (h : fixNameAll d names = .ok d') :
    fixNameAll d' names = .ok d' ∧
      ∀ t : Tax, t.name.isSome = true → t.fix_name names = .ok t := by
  refine ⟨fixNameAll_stable h, ?_⟩
  intro t ht
  cases hn : t.name with
  | none => rw [hn] at ht; cases ht
  | some v => simp only [Tax.fix_name, hn]

/-- C6 witness: fixing an unnamed root once and then re-running the
pass on the result returns the result unchanged. -/
theorem fix_name_idempotent_witness :
    fixNameAll
        [("1", { tax_id := "1", rank := some "no rank",
                 name := some "Animalia" })] [("1", "Animalia")] =
      .ok [("1", { tax_id := "1", rank := some "no rank",
                   name := some "Animalia" })] :=
  (fix_name_idempotent
    [("1", { tax_id := "1", rank := some "no rank" })] [("1", "Animalia")]
    [("1", { tax_id := "1", rank := some "no rank",
             name := some "Animalia" })] (by decide)).1

theorem dictKeys_map_linkResult (d : Dict Tax) :
    dictKeys (d.map (fun kv => (kv.1, linkResult kv.2))) = dictKeys d := by
  rw [dictKeys, dictKeys, List.map_map]
  rfl

/-- C7: for a node-record set whose parse succeeds, containing a row
with the root sentinel identifier `"1"` and where every non-root row's
parent identifier is the identifier of some row, the linking pass
succeeds and exactly one entry of the index has an absent parent — the
one keyed `"1"`, whose `parent_tax_id` was left absent at parse time —
while every other entry's parent reference resolves to a key present in
the index. -/
theorem link_root_unique_parent (lines : List String) (d : Dict Tax)
    (hparse : readNodesDmp lines = .ok d)
    (hroot : ∃ l ∈ lines, fieldAt l 0 = some "1")
    (hpar : ∀ l ∈ lines, fieldAt l 0 ≠ some "1" →
      ∀ p, fieldAt l 1 = some p → ∃ lp ∈ lines, fieldAt lp 0 = some p) :
    ∃ d', linkAll d = .ok d' ∧ dictKeys d' = dictKeys d ∧
      "1" ∈ dictKeys d ∧ (dictKeys d').Nodup ∧
      (∀ k t, (k, t) ∈ d' → (t.parent = none ↔ k = "1")) ∧
      (∀ k t p, (k, t) ∈ d' → t.parent = some p → p ∈ dictKeys d') := by
  have hparse' : exFoldl readNodesStep [] lines = .ok d := hparse
  have hent : ∀ k t, (k, t) ∈ d →
      ∃ l ∈ lines, fieldAt l 0 = some k ∧ mkNodeTax (parseRow l) = .ok t := by
    intro k t hkt
    rcases readNodes_entries hparse' hkt with hin | hout
    · cases hin
    · exact hout
  have hkeys : ∀ k, k ∈ dictKeys d ↔ ∃ l ∈ lines, fieldAt l 0 = some k := by
    intro k
    rw [readNodes_keys hparse' k]
    simp [dictKeys]
  have htid : ∀ k t, (k, t) ∈ d → t.tax_id = k := by
    intro k t hkt
    obtain ⟨l, hl, hf0, hmk⟩ := hent k t hkt
    have h1 := (mkNodeTax_ok hmk).1
    rw [fieldAt, h1] at hf0
    injection hf0
  have hpp : ∀ kv ∈ d, ∀ p, (kv : String × Tax).2.parent_tax_id = some p →
      p ∈ dictKeys d := by
    rintro ⟨k, t⟩ hkt p hp
    obtain ⟨l, hl, hf0, hmk⟩ := hent k t hkt
    have hinv := mkNodeTax_ok hmk
    rcases hinv.2.2.2.2 with ⟨h1, hpt⟩ | ⟨h1, hpt, hne⟩
    · rw [hp] at hpt
      cases hpt
    · have htk : t.tax_id = k := htid k t hkt
      have hne1 : fieldAt l 0 ≠ some "1" := by
        rw [hf0]
        intro hcon
        injection hcon with hcon
        exact h1 (htk.trans hcon)
      have hf1 : fieldAt l 1 = some p := by
        rw [fieldAt, hpt]
        exact hp
      obtain ⟨lp, hlp, hfp⟩ := hpar l hl hne1 p hf1
      exact (hkeys p).mpr ⟨lp, hlp, hfp⟩
  have hlink : linkAll d = .ok (d.map (fun kv => (kv.1, linkResult kv.2))) :=
    exMapM_linkStep d d hpp
  refine ⟨d.map (fun kv => (kv.1, linkResult kv.2)), hlink,
    dictKeys_map_linkResult d, (hkeys "1").mpr hroot, ?_, ?_, ?_⟩
  · rw [dictKeys_map_linkResult d]
    exact readNodes_nodup hparse' (by simp [dictKeys])
  · intro k t' hkt'
    obtain ⟨kv, hkv, hg⟩ := List.mem_map.mp hkt'
    obtain ⟨k₀, t₀⟩ := kv
    have hk : k₀ = k := congrArg Prod.fst hg
    have hlr : linkResult t₀ = t' := congrArg Prod.snd hg
    subst hk
    subst hlr
    obtain ⟨l, hl, hf0, hmk⟩ := hent k₀ t₀ hkv
    have hinv := mkNodeTax_ok hmk
    have htk : t₀.tax_id = k₀ := htid k₀ t₀ hkv
    rcases hinv.2.2.2.2 with ⟨h1, hpt⟩ | ⟨h1, hpt, hne⟩
    · constructor
      · intro _
        exact htk ▸ h1
      · intro _
        simp only [linkResult, hpt]
        exact hinv.2.1
    · cases hpt2 : t₀.parent_tax_id with
      | none => exact absurd hpt2 hne
      | some p =>
        constructor
        · intro hcon
          simp only [linkResult, hpt2] at hcon
          cases hcon
        · intro hk1
          exact absurd (htk.trans hk1) h1
  · intro k t' p hkt' hp'
    obtain ⟨kv, hkv, hg⟩ := List.mem_map.mp hkt'
    obtain ⟨k₀, t₀⟩ := kv
    have hlr : linkResult t₀ = t' := congrArg Prod.snd hg
    subst hlr
    rw [dictKeys_map_linkResult d]
    cases hpt2 : t₀.parent_tax_id with
    | none =>
      obtain ⟨l, hl, hf0, hmk⟩ := hent k₀ t₀ hkv
      have hpar0 := (mkNodeTax_ok hmk).2.1
      simp only [linkResult, hpt2] at hp'
      rw [hpar0] at hp'
      cases hp'
    | some p₀ =>
      simp only [linkResult, hpt2] at hp'
      injection hp' with hp'
      subst hp'
      exact hpp (k₀, t₀) hkv p₀ hpt2

/-- C7 witness: a two-row dump (root `"1"`, child `"2"` with parent
`"1"`) links successfully; the root key is present and the linked child
has a non-absent parent. -/
theorem link_root_unique_parent_witness :
    exIsOk (linkAll [("1", { tax_id := "1", rank := some "no rank" }),
      ("2", { tax_id := "2", parent_tax_id := some "1",
              rank := some "species" })]) = true ∧
    ("1" : String) ∈ dictKeys
      [("1", ({ tax_id := "1", rank := some "no rank" } : Tax)),
       ("2", { tax_id := "2", parent_tax_id := some "1",
               rank := some "species" })] ∧
    (({ tax_id := "2", parent_tax_id := some "1", rank := some "species",
        parent := some "1" } : Tax).parent = none ↔ ("2" : String) = "1") := by
  obtain ⟨d', hlink, hkeq, hroot1, hnodup, hiff, hp⟩ :=
    link_root_unique_parent
      ["1\t|\t1\t|\tno rank\t|\n", "2\t|\t1\t|\tspecies\t|\n"]
      [("1", { tax_id := "1", rank := some "no rank" }),
       ("2", { tax_id := "2", parent_tax_id := some "1",
               rank := some "species" })]
      (by decide) (by decide)
      (by
        intro l hl hne p hp
        rcases List.mem_cons.mp hl with rfl | hl'
        · exact absurd (by decide) hne
        rcases List.mem_cons.mp hl' with rfl | hl''
        · rw [show fieldAt "2\t|\t1\t|\tspecies\t|\n" 1 = some "1"
              from by decide] at hp
          injection hp with hp
          exact ⟨"1\t|\t1\t|\tno rank\t|\n", by decide, by rw [← hp]; decide⟩
        · cases hl'')
  have hconc : linkAll [("1", ({ tax_id := "1", rank := some "no rank" } : Tax)),
      ("2", { tax_id := "2", parent_tax_id := some "1",
              rank := some "species" })] =
      .ok [("1", { tax_id := "1", rank := some "no rank" }),
           ("2", { tax_id := "2", parent_tax_id := some "1",
                   rank := some "species", parent := some "1" })] := by
    decide
  refine ⟨by rw [hlink]; rfl, hroot1, ?_⟩
  rw [hconc] at hlink
  injection hlink with he
  subst he
  exact hiff "2"
    { tax_id := "2", parent_tax_id := some "1", rank := some "species",
      parent := some "1" } (by decide)

theorem readNamesStep_err {acc : Dict String} {l : String}
    (h : (parseRow l).length < 4) : readNamesStep acc l = .error .indexError := by
  rcases hrow : parseRow l with _ | ⟨r0, _ | ⟨r1, _ | ⟨r2', _ | ⟨r3, rr⟩⟩⟩⟩
  · simp [readNamesStep, hrow]
  · simp [readNamesStep, hrow]
  · simp [readNamesStep, hrow]
  · simp [readNamesStep, hrow]
  · exfalso
    rw [hrow] at h
    simp at h
    omega

theorem readNamesStep_err_shape {acc : Dict String} {l : String} {e : PyError}
    (h : readNamesStep acc l = .error e) : e = .indexError := by
  rcases hrow : parseRow l with _ | ⟨r0, _ | ⟨r1, _ | ⟨r2', _ | ⟨r3, rr⟩⟩⟩⟩
  · simp only [readNamesStep, hrow] at h
    injection h with h'
    exact h'.symm
  · simp only [readNamesStep, hrow] at h
    injection h with h'
    exact h'.symm
  · simp only [readNamesStep, hrow] at h
    injection h with h'
    exact h'.symm
  · simp only [readNamesStep, hrow] at h
    injection h with h'
    exact h'.symm
  · simp only [readNamesStep, hrow] at h
    cases h

theorem readNodesStep_err {acc : Dict Tax} {l : String}
    (h : (parseRow l).length < 3) : readNodesStep acc l = .error .indexError := by
  rcases hrow : parseRow l with _ | ⟨r0, _ | ⟨r1, _ | ⟨r2, rr⟩⟩⟩
  · simp [readNodesStep, mkNodeTax, hrow]
  · simp [readNodesStep, mkNodeTax, hrow]
  · simp [readNodesStep, mkNodeTax, hrow]
  · exfalso
    rw [hrow] at h
    simp at h
    omega

theorem readNodesStep_err_shape {acc : Dict Tax} {l : String} {e : PyError}
    (h : readNodesStep acc l = .error e) : e = .indexError := by
  rcases hrow : parseRow l with _ | ⟨r0, _ | ⟨r1, _ | ⟨r2, rr⟩⟩⟩
  · simp only [readNodesStep, mkNodeTax, hrow] at h
    injection h with h'
    exact h'.symm
  · simp only [readNodesStep, mkNodeTax, hrow] at h
    injection h with h'
    exact h'.symm
  · simp only [readNodesStep, mkNodeTax, hrow] at h
    injection h with h'
    exact h'.symm
  · by_cases h0 : r0 = "1"
    · simp [readNodesStep, mkNodeTax, hrow, h0] at h
    · simp [readNodesStep, mkNodeTax, hrow, h0] at h

theorem readNodesStep_ok3 {acc : Dict Tax} {l : String}
    (h : (parseRow l).length = 3) : exIsOk (readNodesStep acc l) = true := by
  rcases hrow : parseRow l with _ | ⟨r0, _ | ⟨r1, _ | ⟨r2, rr⟩⟩⟩
  · rw [hrow] at h; simp at h
  · rw [hrow] at h; simp at h
  · rw [hrow] at h; simp at h
  · by_cases h0 : r0 = "1"
    · simp [readNodesStep, mkNodeTax, hrow, h0, exIsOk]
    · simp [readNodesStep, mkNodeTax, hrow, h0, exIsOk]

theorem exFoldl_names_err {lines : List String} {acc : Dict String}
    {l : String} (hl : l ∈ lines) (hbad : (parseRow l).length < 4) :
    exFoldl readNamesStep acc lines = .error .indexError := by
  induction lines generalizing acc with
  | nil => cases hl
  | cons a rest ih =>
    rcases List.mem_cons.mp hl with rfl | hl'
    · rw [exFoldl, readNamesStep_err hbad]
    · rw [exFoldl]
      cases hstep : readNamesStep acc a with
      | error e => rw [readNamesStep_err_shape hstep]
      | ok acc' => exact ih hl'

theorem exFoldl_nodes_err {lines : List String} {acc : Dict Tax}
    {l : String} (hl : l ∈ lines) (hbad : (parseRow l).length < 3) :
    exFoldl readNodesStep acc lines = .error .indexError := by
  induction lines generalizing acc with
  | nil => cases hl
  | cons a rest ih =>
    rcases List.mem_cons.mp hl with rfl | hl'
    · rw [exFoldl, readNodesStep_err hbad]
    · rw [exFoldl]
      cases hstep : readNodesStep acc a with
      | error e => rw [readNodesStep_err_shape hstep]
      | ok acc' => exact ih hl'

/-- C8 counterexample: a node row that splits into exactly 3 fields —
fewer than 4 — is parsed successfully by the node-record reader (which
never accesses a fourth field), so a short row is not always a fatal
error for both readers. -/
theorem node_row_three_fields_ok_counterexample :
    (parseRow "2\t|\t1\t|\tspecies\t|\n").length < 4 ∧
    readNodesDmp ["2\t|\t1\t|\tspecies\t|\n"] =
      .ok [("2", { tax_id := "2", parent_tax_id := some "1",
                   rank := some "species" })] := by
  decide

/-- C8 amended: a row with fewer than 4 fields is a fatal `IndexError`
(never a skip) for the name-record reader; the node-record reader reads
only fields 0..2, so it raises exactly on rows with fewer than 3
fields, while a row with exactly 3 fields parses successfully. -/
theorem short_row_fatal_amended :
    (∀ lines l, l ∈ lines → (parseRow l).length < 4 →
      readNamesDmp lines = .error .indexError) ∧
    (∀ lines l, l ∈ lines → (parseRow l).length < 3 →
      readNodesDmp lines = .error .indexError) ∧
    (∀ (l : String) (acc : Dict Tax), (parseRow l).length = 3 →
      exIsOk (readNodesStep acc l) = true) :=
  ⟨fun _ _ hl hbad => exFoldl_names_err hl hbad,
   fun _ _ hl hbad => exFoldl_nodes_err hl hbad,
   fun _ _ h => readNodesStep_ok3 h⟩

/-- C8 witness for the amended statement: a 1-field row is fatal for
the name reader, a 2-field row is fatal for the node reader, and a
3-field node row parses. -/
theorem short_row_fatal_amended_witness :
    readNamesDmp ["xx"] = .error .indexError ∧
    readNodesDmp ["a\t|\tb"] = .error .indexError ∧
    exIsOk (readNodesStep [] "2\t|\t1\t|\tspecies\t|\n") = true :=
  ⟨short_row_fatal_amended.1 ["xx"] "xx" (by decide) (by decide),
   short_row_fatal_amended.2.1 ["a\t|\tb"] "a\t|\tb" (by decide) (by decide),
   short_row_fatal_amended.2.2 "2\t|\t1\t|\tspecies\t|\n" [] (by decide)⟩

/-- C9 witness for the amended statement, at two concrete nodes. -/
theorem eq_by_id_hash_by_tax_id_witness :
    (({ id := some 7, tax_id := "4" } : Tax).eqPy
        (.vtax { id := some 7, tax_id := "4" }) = .ok true ↔
      (some 7 : Option Int) = some 7) ∧
    ({ id := some 7, tax_id := "4" } : Tax).hashArg = "4" :=
  eq_by_id_hash_by_tax_id { id := some 7, tax_id := "4" }
    { id := some 7, tax_id := "4" }
